import Mathlib

/-!
A shallow embedding of the Telegram MCP media cache
(`telegram_mcp/utils/media_storage.py`, plus the `tgfile://` resource handler
in `main.py`).  The filesystem is modelled as an association list from paths
to byte lists; the store state carries the in-memory index, the persisted
copy of the index (the content of `index.json`), the filesystem, and a
counter of how many times the index has been written to disk.
-/

/-- Lookup in an association list keyed by strings: the value of the first
entry whose key matches, as Python dict lookup. -/
def findVal {α : Type} (k : String) : List (String × α) → Option α
  | [] => none
  | (k', v) :: rest => if k' = k then some v else findVal k rest

/-- Python dict assignment `d[k] = v`: replace the value in place if the key
is present, otherwise append a new entry (insertion order preserved). -/
def upsert {α : Type} (k : String) (v : α) : List (String × α) → List (String × α)
  | [] => [(k, v)]
  | (k', v') :: rest => if k' = k then (k, v) :: rest else (k', v') :: upsert k v rest

/-- Python dict deletion, and file removal: drop the first entry carrying the
key. -/
def eraseKey {α : Type} (k : String) : List (String × α) → List (String × α)
  | [] => []
  | (k', v') :: rest => if k' = k then rest else (k', v') :: eraseKey k rest

/-- One entry of the media index: the dict stored under a key of
`self.index`.  The optional `chat_id` and `message_id` fields model the keys
that `list_media` adds to the dict in place; a freshly saved entry does not
carry them. -/
structure MediaInfo where
  path : String
  mime_type : String
  timestamp : String
  size : Nat
  extension : String
  chat_id : Option Int := none
  message_id : Option Int := none
  deriving DecidableEq

/-- The observable state: the store's base directory, the in-memory index,
the persisted index (content of the on-disk `index.json`), the media
filesystem (paths to byte contents), and how many times `_save_index` ran. -/
structure StoreState where
  base_dir : String
  index : List (String × MediaInfo)
  persisted : List (String × MediaInfo)
  fs : List (String × List Nat)
  persistCount : Nat
  deriving DecidableEq

/-- Final component of a path, as `pathlib.PurePath.name`. -/
def pathName (p : String) : String :=
  String.mk ((p.toList.reverse.takeWhile (fun c => c != '/')).reverse)

/-- Extension of the final component, as `pathlib.PurePath.suffix`: the part
from the last dot on; empty when there is no dot, when the only dot leads the
name, or when the dot is the final character. -/
def pathSuffix (p : String) : String :=
  let cs := (pathName p).toList
  let rtail := cs.reverse.takeWhile (fun c => c != '.')
  if rtail.length = cs.length then ""
  else if 0 < cs.length - 1 - rtail.length ∧ rtail.length ≠ 0 then
    String.mk ('.' :: rtail.reverse)
  else ""

/-- Modelled from the Python standard library: the fragment of
`mimetypes.guess_type` that the cache exercises — lookup of the lower-cased
path suffix in the built-in extension table (common entries reproduced
here), `none` when the suffix is absent or unknown. -/
def guess_type (p : String) : Option String :=
  let e := String.mk ((pathSuffix p).toList.map Char.toLower)
  if e = ".jpg" ∨ e = ".jpeg" then some "image/jpeg"
  else if e = ".png" then some "image/png"
  else if e = ".gif" then some "image/gif"
  else if e = ".webp" then some "image/webp"
  else if e = ".mp4" then some "video/mp4"
  else if e = ".mp3" then some "audio/mpeg"
  else if e = ".ogg" then some "audio/ogg"
  else if e = ".pdf" then some "application/pdf"
  else if e = ".txt" then some "text/plain"
  else if e = ".bin" then some "application/octet-stream"
  else none

/-- The `ext_map.get(mime_type, ".bin")` lookup of `save_media`, with the
fixed eight-entry table from the source. -/
def ext_map_get (mime : String) : String :=
  if mime = "image/jpeg" then ".jpg"
  else if mime = "image/png" then ".png"
  else if mime = "image/gif" then ".gif"
  else if mime = "image/webp" then ".webp"
  else if mime = "video/mp4" then ".mp4"
  else if mime = "audio/mpeg" then ".mp3"
  else if mime = "audio/ogg" then ".ogg"
  else if mime = "application/pdf" then ".pdf"
  else ".bin"

/-- MIME resolution in `save_media`: the caller's value when given, else the
guess from the source path, else the octet-stream default. -/
def resolve_mime (source_path : String) (mime_type : Option String) : String :=
  match mime_type with
  | some m => m
  | none =>
    match guess_type source_path with
    | some m => m
    | none => "application/octet-stream"

/-- Extension resolution in `save_media`: the source path's own suffix when
non-empty, else the `ext_map` lookup of the resolved MIME type. -/
def resolve_extension (source_path : String) (mime : String) : String :=
  if pathSuffix source_path = "" then ext_map_get mime else pathSuffix source_path

/-- The `_get_key` helper: the string `"{chat_id}|{message_id}"`. -/
def get_key (chat_id message_id : Int) : String :=
  toString chat_id ++ "|" ++ toString message_id

/-- The `_get_file_path` helper: the base directory joined with
`"chat{chat_id}_msg{message_id}{extension}"`. -/
def get_file_path (base_dir : String) (chat_id message_id : Int) (extension : String) :
    String :=
  base_dir ++ "/chat" ++ toString chat_id ++ "_msg" ++ toString message_id ++ extension

/-- Splitting on the bar character, as the `key.split("|")` call. -/
def splitBar : List Char → List (List Char)
  | [] => [[]]
  | c :: rest =>
    let r := splitBar rest
    if c = '|' then [] :: r else (c :: r.headD []) :: r.tail

/-- Decimal digit accumulation for `parseInt`; `none` until at least one
digit has been read, and on any non-digit character. -/
def parseNatAux : Option Nat → List Char → Option Nat
  | acc, [] => acc
  | acc, c :: rest =>
    if '0' ≤ c ∧ c ≤ '9' then
      parseNatAux (some ((acc.getD 0) * 10 + (c.toNat - '0'.toNat))) rest
    else none

/-- Modelled from the Python `int(...)` conversion applied to key halves and
route parameters: an optional minus sign followed by decimal digits. -/
def parseInt (s : String) : Option Int :=
  match s.toList with
  | '-' :: rest => (parseNatAux none rest).map (fun n => -(n : Int))
  | cs => (parseNatAux none cs).map (fun n => (n : Int))

/-- Key decoding in `list_media`: `key.split("|")` followed by `int(...)` on
both halves; `none` models the `ValueError` path, which no key written by
`_get_key` can reach. -/
def splitKey (k : String) : Option (Int × Int) :=
  match splitBar k.toList with
  | [a, b] =>
    match parseInt (String.mk a), parseInt (String.mk b) with
    | some c, some m => some (c, m)
    | _, _ => none
  | _ => none

/-- The in-place annotation `media_info["chat_id"] = int(chat_id)` (and
likewise for `message_id`) that `list_media` performs on each live entry. -/
def annotate (k : String) (v : MediaInfo) : MediaInfo :=
  match splitKey k with
  | some cm => { v with chat_id := some cm.1, message_id := some cm.2 }
  | none => v

/-- The `_save_index` helper: write the in-memory index to `index.json`. -/
def save_index (s : StoreState) : StoreState :=
  { s with persisted := s.index, persistCount := s.persistCount + 1 }

/-- `save_media`: check the source exists, resolve MIME type and extension,
copy the bytes to the deterministic destination, measure the size from the
copy, upsert the index entry, and persist the index.  The error value
carries the `FileNotFoundError` message. -/
def save_media (s : StoreState) (chat_id message_id : Int) (source_path : String)
    (mime_type : Option String) (now : String) : StoreState × Except String String :=
  match findVal source_path s.fs with
  | none => (s, Except.error ("Source file not found: " ++ source_path))
  | some bytes =>
    let mime := resolve_mime source_path mime_type
    let extension := resolve_extension source_path mime
    let dest_path := get_file_path s.base_dir chat_id message_id extension
    let fs1 := upsert dest_path bytes s.fs
    let file_size := ((findVal dest_path fs1).getD []).length
    let key := get_key chat_id message_id
    let info : MediaInfo :=
      { path := dest_path, mime_type := mime, timestamp := now,
        size := file_size, extension := extension }
    (save_index { s with fs := fs1, index := upsert key info s.index },
     Except.ok dest_path)

/-- `get_media`: pure index lookup. -/
def get_media (s : StoreState) (chat_id message_id : Int) : Option MediaInfo :=
  findVal (get_key chat_id message_id) s.index

/-- `get_media_path`: the stored path, only while it exists on disk. -/
def get_media_path (s : StoreState) (chat_id message_id : Int) : Option String :=
  match get_media s chat_id message_id with
  | some info => if (findVal info.path s.fs).isSome then some info.path else none
  | none => none

/-- The `os.path.exists(media_info["path"])` check. -/
def entryLive (fs : List (String × List Nat)) (v : MediaInfo) : Bool :=
  (findVal v.path fs).isSome

/-- The value an index entry holds after the `list_media` loop body ran on
it: live entries get the in-place annotation, stale ones are untouched. -/
def annVal (fs : List (String × List Nat)) (k : String) (v : MediaInfo) : MediaInfo :=
  if entryLive fs v then annotate k v else v

/-- The `stale_keys` list collected by the `list_media` loop, in index
order. -/
def staleKeysOf (s : StoreState) : List String :=
  (s.index.filter (fun kv => !entryLive s.fs kv.2)).map (fun kv => kv.1)

/-- `list_media`: annotate every live entry in place, collect the live
entries in index order, then delete every stale key and — when at least one
key was stale — persist the index once. -/
def list_media (s : StoreState) : StoreState × List MediaInfo :=
  let annotated := s.index.map (fun kv => (kv.1, annVal s.fs kv.1 kv.2))
  let valid_media := (annotated.filter (fun kv => entryLive s.fs kv.2)).map (fun kv => kv.2)
  let stale_keys := staleKeysOf s
  let s1 := { s with index := stale_keys.foldl (fun idx k => eraseKey k idx) annotated }
  if stale_keys.isEmpty then (s1, valid_media) else (save_index s1, valid_media)

/-- `delete_media`; `removeOk` models whether `os.remove` succeeds, so that a
logged-and-ignored removal failure is expressible. -/
def delete_media (removeOk : Bool) (s : StoreState) (chat_id message_id : Int) :
    StoreState × Bool :=
  let key := get_key chat_id message_id
  match findVal key s.index with
  | none => (s, false)
  | some info =>
    let fs1 := if (findVal info.path s.fs).isSome && removeOk
      then eraseKey info.path s.fs else s.fs
    (save_index { s with fs := fs1, index := eraseKey key s.index }, true)

/-- `clear_all_media`; `removeOk` tells, per path, whether `os.remove`
succeeds.  The counter is bumped only after a successful removal of an
existing file, exactly as `deleted_count += 1` sits after the `os.remove`
call in the source. -/
def clear_all_media (removeOk : String → Bool) (s : StoreState) : StoreState × Nat :=
  let r := s.index.foldl (fun (acc : List (String × List Nat) × Nat) kv =>
    if (findVal kv.2.path acc.1).isSome then
      if removeOk kv.2.path then (eraseKey kv.2.path acc.1, acc.2 + 1) else acc
    else acc) (s.fs, 0)
  (save_index { s with fs := r.1, index := [] }, r.2)

/-- The dictionary returned by `get_storage_stats`. -/
structure StorageStats where
  total_files : Nat
  total_size_bytes : Nat
  total_size_mb : ℚ
  storage_path : String
  deriving DecidableEq

/-- Two-decimal rounding: the embedding of `round(x, 2)` over exact
rationals. -/
def round2 (q : ℚ) : ℚ := ((round (q * 100) : ℤ) : ℚ) / 100

/-- `get_storage_stats`: derived from `list_media`, summing the recorded
sizes. -/
def get_storage_stats (s : StoreState) : StoreState × StorageStats :=
  let r := list_media s
  let total_size := (r.2.map (fun v => v.size)).sum
  (r.1,
   { total_files := r.2.length, total_size_bytes := total_size,
     total_size_mb := round2 ((total_size : ℚ) / (1024 * 1024)),
     storage_path := s.base_dir })

/-- Modelled from the Python standard library: the `base64.b64encode`
alphabet. -/
def b64Char (n : Nat) : Char :=
  "ABCDEFGHIJKLMNOPQRSTUVWXYZabcdefghijklmnopqrstuvwxyz0123456789+/".toList.getD n 'A'

/-- Modelled from the Python standard library: RFC 4648 `base64.b64encode`
over a byte list, with `=` padding. -/
def base64Encode : List Nat → List Char
  | a :: b :: c :: rest =>
    let n := a % 256 * 65536 + b % 256 * 256 + c % 256
    b64Char (n / 262144) :: b64Char (n / 4096 % 64) :: b64Char (n / 64 % 64) ::
      b64Char (n % 64) :: base64Encode rest
  | [a, b] =>
    let n := a % 256 * 65536 + b % 256 * 256
    [b64Char (n / 262144), b64Char (n / 4096 % 64), b64Char (n / 64 % 64), '=']
  | [a] =>
    let n := a % 256 * 65536
    [b64Char (n / 262144), b64Char (n / 4096 % 64), '=', '=']
  | [] => []

/-- The fields of the `BlobResourceContents` value built by the resource
handler. -/
structure BlobResourceContents where
  uri : String
  blob : String
  mimeType : String
  deriving DecidableEq

/-- Decidable equality on handler results, for evaluating the model at
concrete inputs. -/
instance {e a : Type} [DecidableEq e] [DecidableEq a] : DecidableEq (Except e a) := fun x y =>
  match x, y with
  | Except.error u, Except.error v =>
    if h : u = v then Decidable.isTrue (by rw [h]) else Decidable.isFalse (by simp [h])
  | Except.error _, Except.ok _ => Decidable.isFalse (by simp)
  | Except.ok _, Except.error _ => Decidable.isFalse (by simp)
  | Except.ok u, Except.ok v =>
    if h : u = v then Decidable.isTrue (by rw [h]) else Decidable.isFalse (by simp [h])

/-- The `tgfile://{chat_id}/{message_id}` resource handler
(`get_telegram_media` in `main.py`).  Both route parameters arrive as
strings; every `ValueError` raised inside the handler is caught and
re-raised wrapped, which is why each message carries the
`Failed to serve media resource: ` prelude. -/
def get_telegram_media (s : StoreState) (chat_id message_id : String) :
    Except String BlobResourceContents :=
  match parseInt chat_id, parseInt message_id with
  | some c, some m =>
    match get_media s c m with
    | none => Except.error ("Failed to serve media resource: Media not found: "
        ++ chat_id ++ "/" ++ message_id ++ ". Download it first.")
    | some info =>
      match findVal info.path s.fs with
      | none => Except.error ("Failed to serve media resource: Media file not found at "
          ++ info.path)
      | some bytes =>
        Except.ok { uri := "tgfile://" ++ chat_id ++ "/" ++ message_id,
                    blob := String.mk (base64Encode bytes),
                    mimeType := info.mime_type }
  | _, _ => Except.error "Failed to serve media resource: invalid id"

/-- Substring test, used to state what an error message does or does not
mention. -/
def containsSub (needle hay : String) : Bool :=
  (List.range (hay.toList.length + 1)).any
    (fun i => (hay.toList.drop i).take needle.toList.length == needle.toList)

/-- At most one index entry per key: the keys are pairwise distinct. -/
def KeysNodup (l : List (String × MediaInfo)) : Prop :=
  (l.map (fun kv => kv.1)).Nodup

/-- States reachable from a freshly constructed store.  `init` loads any
parsed `index.json` (a JSON object, hence with pairwise distinct keys) over
any filesystem; `extFs` lets the environment change the filesystem
out-of-band, as the stale-entry scenarios require. -/
inductive Reachable : StoreState → Prop
  | init (base_dir : String) (idx : List (String × MediaInfo))
      (fs : List (String × List Nat)) (h : KeysNodup idx) :
      Reachable ⟨base_dir, idx, idx, fs, 0⟩
  | save {s} (c m : Int) (src : String) (mt : Option String) (now : String) :
      Reachable s → Reachable (save_media s c m src mt now).1
  | listStep {s} : Reachable s → Reachable (list_media s).1
  | deleteStep {s} (ok : Bool) (c m : Int) :
      Reachable s → Reachable (delete_media ok s c m).1
  | clearStep {s} (ok : String → Bool) :
      Reachable s → Reachable (clear_all_media ok s).1
  | statsStep {s} : Reachable s → Reachable (get_storage_stats s).1
  | extFs {s} (fs' : List (String × List Nat)) :
      Reachable s → Reachable { s with fs := fs' }


/-- Keys of an association list. -/
def keysOf {α : Type} (l : List (String × α)) : List String :=
  l.map (fun kv => kv.1)

theorem findVal_upsert_self {α : Type} (k : String) (v : α) (l : List (String × α)) :
    findVal k (upsert k v l) = some v := by
  induction l with
  | nil => simp [upsert, findVal]
  | cons kv rest ih =>
    obtain ⟨k0, v0⟩ := kv
    by_cases h : k0 = k
    · simp [upsert, h, findVal]
    · simpa [upsert, h, findVal] using ih

theorem findVal_upsert_ne {α : Type} {k k' : String} (h : k ≠ k') (v : α)
    (l : List (String × α)) : findVal k (upsert k' v l) = findVal k l := by
  have h' : ¬(k' = k) := fun hh => h hh.symm
  induction l with
  | nil => simp [upsert, findVal, h']
  | cons kv rest ih =>
    obtain ⟨k0, v0⟩ := kv
    by_cases h1 : k0 = k'
    · subst h1
      simp [upsert, findVal, h']
    · by_cases h2 : k0 = k <;> simp [upsert, findVal, h1, h2, ih, h]

theorem findVal_eraseKey_ne {α : Type} {k k' : String} (h : k ≠ k')
    (l : List (String × α)) : findVal k (eraseKey k' l) = findVal k l := by
  have h' : ¬(k' = k) := fun hh => h hh.symm
  induction l with
  | nil => simp [eraseKey]
  | cons kv rest ih =>
    obtain ⟨k0, v0⟩ := kv
    by_cases h1 : k0 = k'
    · subst h1
      simp [eraseKey, findVal, h']
    · by_cases h2 : k0 = k <;> simp [eraseKey, findVal, h1, h2, ih, h]

theorem findVal_eq_none {α : Type} {k : String} {l : List (String × α)}
    (h : k ∉ keysOf l) : findVal k l = none := by
  induction l with
  | nil => simp [findVal]
  | cons kv rest ih =>
    obtain ⟨k0, v0⟩ := kv
    simp only [keysOf, List.map_cons, List.mem_cons] at h
    push_neg at h
    have h1 : ¬(k0 = k) := fun hh => h.1 hh.symm
    simpa [findVal, h1] using ih (by simpa [keysOf] using h.2)

theorem mem_of_findVal {α : Type} {k : String} {v : α} :
    ∀ {l : List (String × α)}, findVal k l = some v → (k, v) ∈ l := by
  intro l
  induction l with
  | nil => simp [findVal]
  | cons kv rest ih =>
    obtain ⟨k0, v0⟩ := kv
    by_cases h1 : k0 = k
    · subst h1
      intro h
      rw [findVal, if_pos rfl, Option.some_inj] at h
      subst h
      exact List.mem_cons_self _ _
    · intro h
      rw [findVal, if_neg h1] at h
      exact List.mem_cons_of_mem _ (ih h)

theorem mem_keys_of_findVal {α : Type} {k : String} {v : α} {l : List (String × α)}
    (h : findVal k l = some v) : k ∈ keysOf l :=
  List.mem_map.mpr ⟨(k, v), mem_of_findVal h, rfl⟩

theorem findVal_of_mem {α : Type} {k : String} {v : α} {l : List (String × α)}
    (hn : (keysOf l).Nodup) (h : (k, v) ∈ l) : findVal k l = some v := by
  induction l with
  | nil => simp at h
  | cons kv rest ih =>
    obtain ⟨k0, v0⟩ := kv
    simp only [keysOf, List.map_cons, List.nodup_cons] at hn
    rcases List.mem_cons.mp h with h | h
    · simp only [Prod.mk.injEq] at h
      rw [findVal, if_pos h.1.symm, h.2]
    · have hk : k ∈ keysOf rest := List.mem_map.mpr ⟨(k, v), h, rfl⟩
      have h1 : ¬(k0 = k) := fun hh => hn.1 (hh ▸ hk)
      simpa [findVal, h1] using ih hn.2 h

theorem keysOf_upsert {α : Type} (k : String) (v : α) (l : List (String × α)) :
    keysOf (upsert k v l) = if k ∈ keysOf l then keysOf l else keysOf l ++ [k] := by
  induction l with
  | nil => simp [upsert, keysOf]
  | cons kv rest ih =>
    obtain ⟨k0, v0⟩ := kv
    by_cases h1 : k0 = k
    · subst h1
      simp [upsert, keysOf]
    · have h2 : ¬(k = k0) := fun hh => h1 hh.symm
      by_cases h3 : k ∈ keysOf rest <;>
        simp_all [upsert, keysOf, List.mem_cons, h1, h2, h3]

theorem nodup_keys_upsert {α : Type} (k : String) (v : α) {l : List (String × α)}
    (h : (keysOf l).Nodup) : (keysOf (upsert k v l)).Nodup := by
  rw [keysOf_upsert]
  by_cases h1 : k ∈ keysOf l
  · simpa [h1] using h
  · simp [h1, List.nodup_append, h]

theorem keysOf_eraseKey_sublist {α : Type} (k : String) (l : List (String × α)) :
    List.Sublist (keysOf (eraseKey k l)) (keysOf l) := by
  induction l with
  | nil => simp [eraseKey]
  | cons kv rest ih =>
    obtain ⟨k0, v0⟩ := kv
    by_cases h1 : k0 = k
    · simp only [eraseKey, h1, if_pos, keysOf, List.map_cons]
      exact List.sublist_cons_self _ _
    · simp only [eraseKey, h1, if_neg, if_false, keysOf, List.map_cons]
      exact List.Sublist.cons₂ _ ih

theorem nodup_keys_eraseKey {α : Type} (k : String) {l : List (String × α)}
    (h : (keysOf l).Nodup) : (keysOf (eraseKey k l)).Nodup :=
  h.sublist (keysOf_eraseKey_sublist k l)

theorem findVal_eraseKey_self {α : Type} {l : List (String × α)}
    (hn : (keysOf l).Nodup) (k : String) : findVal k (eraseKey k l) = none := by
  induction l with
  | nil => simp [eraseKey, findVal]
  | cons kv rest ih =>
    obtain ⟨k0, v0⟩ := kv
    simp only [keysOf, List.map_cons, List.nodup_cons] at hn
    by_cases h1 : k0 = k
    · rw [eraseKey, if_pos h1]
      exact findVal_eq_none (h1 ▸ hn.1)
    · simpa [eraseKey, h1, findVal] using ih hn.2

theorem findVal_foldl_erase {α : Type} (ks : List String) :
    ∀ {l : List (String × α)}, (keysOf l).Nodup → ∀ k,
      findVal k (ks.foldl (fun idx k' => eraseKey k' idx) l) =
        if k ∈ ks then none else findVal k l := by
  induction ks with
  | nil => intro l _ k; simp
  | cons k0 ks ih =>
    intro l hn k
    rw [List.foldl_cons]
    rw [ih (nodup_keys_eraseKey k0 hn) k]
    by_cases h1 : k ∈ ks
    · simp [h1, List.mem_cons]
    · by_cases h2 : k = k0
      · subst h2
        simp [h1, findVal_eraseKey_self hn]
      · simp [h1, h2, List.mem_cons, findVal_eraseKey_ne h2]

theorem keysOf_foldl_erase_sublist {α : Type} (ks : List String) :
    ∀ l : List (String × α),
      List.Sublist (keysOf (ks.foldl (fun idx k' => eraseKey k' idx) l)) (keysOf l) := by
  induction ks with
  | nil => intro l; simp
  | cons k0 ks ih =>
    intro l
    rw [List.foldl_cons]
    exact (ih (eraseKey k0 l)).trans (keysOf_eraseKey_sublist k0 l)

theorem nodup_keys_foldl_erase {α : Type} (ks : List String) {l : List (String × α)}
    (h : (keysOf l).Nodup) :
    (keysOf (ks.foldl (fun idx k' => eraseKey k' idx) l)).Nodup :=
  h.sublist (keysOf_foldl_erase_sublist ks l)

theorem findVal_map_entry {α β : Type} (f : String → α → β) (k : String) :
    ∀ l : List (String × α),
      findVal k (l.map (fun kv => (kv.1, f kv.1 kv.2))) = (findVal k l).map (f k) := by
  intro l
  induction l with
  | nil => simp [findVal]
  | cons kv rest ih =>
    obtain ⟨k0, v0⟩ := kv
    by_cases h1 : k0 = k
    · subst h1
      simp [findVal]
    · simpa [findVal, h1] using ih

theorem keysOf_map_entry {α β : Type} (f : String → α → β) (l : List (String × α)) :
    keysOf (l.map (fun kv => (kv.1, f kv.1 kv.2))) = keysOf l := by
  induction l with
  | nil => rfl
  | cons kv rest ih => simp [keysOf]

theorem entry_eq_of_nodup_keys {α : Type} {l : List (String × α)}
    (hn : (keysOf l).Nodup) {a b : String × α} (ha : a ∈ l) (hb : b ∈ l)
    (hk : a.1 = b.1) : a = b :=
  List.inj_on_of_nodup_map hn ha hb hk

theorem filter_key_length_le_one {α : Type} {l : List (String × α)}
    (hn : (keysOf l).Nodup) (k : String) :
    (l.filter (fun kv => kv.1 == k)).length ≤ 1 := by
  induction l with
  | nil => simp
  | cons kv rest ih =>
    obtain ⟨k0, v0⟩ := kv
    simp only [keysOf, List.map_cons, List.nodup_cons] at hn
    by_cases h1 : k0 = k
    · subst h1
      have : rest.filter (fun kv => kv.1 == k0) = [] := by
        apply List.filter_eq_nil_iff.mpr
        intro kv hkv
        simp only [beq_iff_eq]
        intro hcontra
        exact hn.1 (List.mem_map.mpr ⟨kv, hkv, hcontra⟩)
      simp [List.filter_cons, this]
    · simpa [List.filter_cons, h1] using ih hn.2

theorem filter_key_eq_single {α : Type} {l : List (String × α)}
    (hn : (keysOf l).Nodup) {k : String} {v : α} (hf : findVal k l = some v) :
    l.filter (fun kv => kv.1 == k) = [(k, v)] := by
  induction l with
  | nil => simp [findVal] at hf
  | cons kv rest ih =>
    obtain ⟨k0, v0⟩ := kv
    simp only [keysOf, List.map_cons, List.nodup_cons] at hn
    by_cases h1 : k0 = k
    · subst h1
      rw [findVal, if_pos rfl, Option.some_inj] at hf
      subst hf
      have : rest.filter (fun kv => kv.1 == k0) = [] := by
        apply List.filter_eq_nil_iff.mpr
        intro kv hkv
        simp only [beq_iff_eq]
        intro hcontra
        exact hn.1 (List.mem_map.mpr ⟨kv, hkv, hcontra⟩)
      simp [List.filter_cons, this]
    · rw [findVal, if_neg h1] at hf
      simpa [List.filter_cons, h1] using ih hn.2 hf

theorem list_media_index_eq (s : StoreState) : (list_media s).1.index =
    (staleKeysOf s).foldl (fun idx k => eraseKey k idx)
      (s.index.map (fun kv => (kv.1, annVal s.fs kv.1 kv.2))) := by
  rw [list_media]
  by_cases h : (staleKeysOf s).isEmpty <;> simp [h, save_index]

theorem list_media_snd_eq (s : StoreState) : (list_media s).2 =
    ((s.index.map (fun kv => (kv.1, annVal s.fs kv.1 kv.2))).filter
      (fun kv => entryLive s.fs kv.2)).map (fun kv => kv.2) := by
  rw [list_media]
  by_cases h : (staleKeysOf s).isEmpty <;> simp [h]

theorem list_media_base_dir (s : StoreState) : (list_media s).1.base_dir = s.base_dir := by
  rw [list_media]
  by_cases h : (staleKeysOf s).isEmpty <;> simp [h, save_index]

theorem list_media_fs (s : StoreState) : (list_media s).1.fs = s.fs := by
  rw [list_media]
  by_cases h : (staleKeysOf s).isEmpty <;> simp [h, save_index]

theorem list_media_persistCount (s : StoreState) : (list_media s).1.persistCount =
    if (staleKeysOf s).isEmpty then s.persistCount else s.persistCount + 1 := by
  rw [list_media]
  by_cases h : (staleKeysOf s).isEmpty <;> simp [h, save_index]

theorem list_media_persisted (s : StoreState) : (list_media s).1.persisted =
    if (staleKeysOf s).isEmpty then s.persisted else (list_media s).1.index := by
  rw [list_media_index_eq, list_media]
  by_cases h : (staleKeysOf s).isEmpty <;> simp [h, save_index]

theorem mem_staleKeysOf {s : StoreState} (hn : (keysOf s.index).Nodup) (k : String) :
    k ∈ staleKeysOf s ↔ ∃ v, findVal k s.index = some v ∧ entryLive s.fs v = false := by
  constructor
  · intro h
    obtain ⟨kv, hkv, hk⟩ := List.mem_map.mp h
    obtain ⟨hmem, hdead⟩ := List.mem_filter.mp hkv
    refine ⟨kv.2, ?_, by simpa using hdead⟩
    rw [← hk]
    exact findVal_of_mem hn (by simpa using hmem)
  · rintro ⟨v, hf, hdead⟩
    exact List.mem_map.mpr ⟨(k, v),
      List.mem_filter.mpr ⟨mem_of_findVal hf, by simp [hdead]⟩, rfl⟩

theorem findVal_list_media_index {s : StoreState} (hn : (keysOf s.index).Nodup)
    (k : String) : findVal k (list_media s).1.index =
      if k ∈ staleKeysOf s then none
      else (findVal k s.index).map (fun v => annVal s.fs k v) := by
  rw [list_media_index_eq]
  rw [findVal_foldl_erase (staleKeysOf s) (by rwa [keysOf_map_entry]) k]
  by_cases h : k ∈ staleKeysOf s <;> simp [h, findVal_map_entry]

theorem nodup_keys_list_media {s : StoreState} (hn : (keysOf s.index).Nodup) :
    (keysOf (list_media s).1.index).Nodup := by
  rw [list_media_index_eq]
  exact nodup_keys_foldl_erase _ (by rwa [keysOf_map_entry])

theorem save_media_err {s : StoreState} {c m : Int} {src : String} {mt : Option String}
    {now : String} (h : findVal src s.fs = none) :
    save_media s c m src mt now = (s, Except.error ("Source file not found: " ++ src)) := by
  simp [save_media, h]

theorem save_media_ok {s : StoreState} {c m : Int} {src : String} {mt : Option String}
    {now : String} {bytes : List Nat} (h : findVal src s.fs = some bytes) :
    save_media s c m src mt now =
      (save_index { s with
          fs := upsert (get_file_path s.base_dir c m
              (resolve_extension src (resolve_mime src mt))) bytes s.fs,
          index := upsert (get_key c m)
            { path := get_file_path s.base_dir c m (resolve_extension src (resolve_mime src mt)),
              mime_type := resolve_mime src mt, timestamp := now,
              size := bytes.length,
              extension := resolve_extension src (resolve_mime src mt) } s.index },
       Except.ok (get_file_path s.base_dir c m (resolve_extension src (resolve_mime src mt)))) := by
  simp [save_media, h, findVal_upsert_self]

theorem delete_media_absent {removeOk : Bool} {s : StoreState} {c m : Int}
    (h : findVal (get_key c m) s.index = none) :
    delete_media removeOk s c m = (s, false) := by
  simp [delete_media, h]

theorem delete_media_present {removeOk : Bool} {s : StoreState} {c m : Int}
    {info : MediaInfo} (h : findVal (get_key c m) s.index = some info) :
    delete_media removeOk s c m =
      (save_index { s with
          fs := if (findVal info.path s.fs).isSome && removeOk
            then eraseKey info.path s.fs else s.fs,
          index := eraseKey (get_key c m) s.index }, true) := by
  simp [delete_media, h]

theorem get_storage_stats_fst (s : StoreState) :
    (get_storage_stats s).1 = (list_media s).1 := rfl

theorem clear_all_media_index (removeOk : String → Bool) (s : StoreState) :
    (clear_all_media removeOk s).1.index = [] := rfl

theorem reachable_keys_nodup {s : StoreState} (h : Reachable s) :
    (keysOf s.index).Nodup := by
  induction h with
  | init base idx fs hn => exact hn
  | @save s c m src mt now _ ih =>
    rcases hfv : findVal src s.fs with _ | bytes
    · rw [save_media_err hfv]
      exact ih
    · simp only [save_media_ok hfv, save_index]
      exact nodup_keys_upsert _ _ ih
  | @listStep s _ ih => exact nodup_keys_list_media ih
  | @deleteStep s ok c m _ ih =>
    rcases hfv : findVal (get_key c m) s.index with _ | info
    · rw [delete_media_absent hfv]
      exact ih
    · simp only [delete_media_present hfv, save_index]
      exact nodup_keys_eraseKey _ ih
  | @clearStep s ok _ _ => simp [clear_all_media_index, keysOf]
  | @statsStep s _ ih =>
    rw [get_storage_stats_fst]
    exact nodup_keys_list_media ih
  | @extFs s fs' _ ih => exact ih

theorem string_append_left_cancel {s t1 t2 : String} (h : s ++ t1 = s ++ t2) : t1 = t2 := by
  have hd := congrArg String.data h
  simp only [String.data_append] at hd
  exact String.ext (List.append_cancel_left hd)

theorem get_file_path_inj_ext {base : String} {c m : Int} {e1 e2 : String}
    (h : get_file_path base c m e1 = get_file_path base c m e2) : e1 = e2 := by
  simp only [get_file_path] at h
  exact string_append_left_cancel h

/-- C1: Round-trip — for every store state, key, existing source file with
content `bytes`, and supplied MIME type, `save_media` followed by
`get_media` yields a record whose `mime_type` is the supplied one and whose
`path` designates a file holding exactly the source bytes. -/
theorem C1_round_trip (s : StoreState) (c m : Int) (src : String) (mime : String)
    (bytes : List Nat) (now : String) (h : findVal src s.fs = some bytes) :
    ∃ info : MediaInfo,
      get_media (save_media s c m src (some mime) now).1 c m = some info ∧
      info.mime_type = mime ∧
      findVal info.path (save_media s c m src (some mime) now).1.fs = some bytes := by
  simp only [save_media_ok h, save_index, get_media]
  exact ⟨_, findVal_upsert_self _ _ _, rfl, findVal_upsert_self _ _ _⟩

theorem C1_round_trip_witness :
    ∃ info : MediaInfo,
      get_media (save_media ⟨"/m", [], [], [("/t/a.png", [7, 8])], 0⟩ 1 2 "/t/a.png"
        (some "image/png") "T").1 1 2 = some info ∧
      info.mime_type = "image/png" ∧
      findVal info.path (save_media ⟨"/m", [], [], [("/t/a.png", [7, 8])], 0⟩ 1 2 "/t/a.png"
        (some "image/png") "T").1.fs = some [7, 8] :=
  C1_round_trip ⟨"/m", [], [], [("/t/a.png", [7, 8])], 0⟩ 1 2 "/t/a.png" "image/png"
    [7, 8] "T" (by decide)

/-- C8: Save atomicity on a missing source — when the source path holds no
file, `save_media` fails with the NotFound error and the in-memory index,
the persisted index, and the filesystem are exactly as before. -/
theorem C8_save_atomicity (s : StoreState) (c m : Int) (src : String)
    (mt : Option String) (now : String) (h : findVal src s.fs = none) :
    save_media s c m src mt now = (s, Except.error ("Source file not found: " ++ src)) ∧
    (save_media s c m src mt now).1.index = s.index ∧
    (save_media s c m src mt now).1.persisted = s.persisted ∧
    (save_media s c m src mt now).1.fs = s.fs ∧
    (save_media s c m src mt now).1.persistCount = s.persistCount := by
  refine ⟨save_media_err h, ?_, ?_, ?_, ?_⟩ <;> rw [save_media_err h]

theorem C8_save_atomicity_witness :
    save_media ⟨"/m", [], [], [], 0⟩ 1 2 "/t/gone.png" none "T" =
      (⟨"/m", [], [], [], 0⟩, Except.error "Source file not found: /t/gone.png") ∧
    (save_media ⟨"/m", [], [], [], 0⟩ 1 2 "/t/gone.png" none "T").1.index = [] ∧
    (save_media ⟨"/m", [], [], [], 0⟩ 1 2 "/t/gone.png" none "T").1.persisted = [] ∧
    (save_media ⟨"/m", [], [], [], 0⟩ 1 2 "/t/gone.png" none "T").1.fs = [] ∧
    (save_media ⟨"/m", [], [], [], 0⟩ 1 2 "/t/gone.png" none "T").1.persistCount = 0 :=
  C8_save_atomicity ⟨"/m", [], [], [], 0⟩ 1 2 "/t/gone.png" none "T" (by decide)

/-- C7: Save resolution and deterministic addressing — the stored MIME type
is the supplied one, else the guess from the source path's extension, else
`application/octet-stream`; the stored extension is the source's own suffix
when non-empty, else the fixed eight-entry table applied to the resolved
MIME type with fallback `.bin`; the destination is the base directory joined
with `chat{chat_id}_msg{message_id}{extension}`; and the concrete scenario —
a 3-byte `.jpg` source saved for `(100, 5)` with no explicit MIME type —
yields `image/jpeg`, `.jpg`, size 3 and path `chat100_msg5.jpg`. -/
theorem C7_save_resolution :
    (∀ (s : StoreState) (c m : Int) (src : String) (mt : Option String) (now : String)
      (bytes : List Nat), findVal src s.fs = some bytes →
      ∃ info : MediaInfo,
        get_media (save_media s c m src mt now).1 c m = some info ∧
        (save_media s c m src mt now).2 = Except.ok info.path ∧
        info.mime_type = resolve_mime src mt ∧
        (∀ mime, mt = some mime → info.mime_type = mime) ∧
        (∀ g, mt = none → guess_type src = some g → info.mime_type = g) ∧
        (mt = none → guess_type src = none → info.mime_type = "application/octet-stream") ∧
        info.extension =
          (if pathSuffix src = "" then ext_map_get info.mime_type else pathSuffix src) ∧
        info.size = bytes.length ∧
        info.path = s.base_dir ++ "/chat" ++ toString c ++ "_msg" ++ toString m
          ++ info.extension) ∧
    ext_map_get "image/jpeg" = ".jpg" ∧ ext_map_get "image/png" = ".png" ∧
    ext_map_get "image/gif" = ".gif" ∧ ext_map_get "image/webp" = ".webp" ∧
    ext_map_get "video/mp4" = ".mp4" ∧ ext_map_get "audio/mpeg" = ".mp3" ∧
    ext_map_get "audio/ogg" = ".ogg" ∧ ext_map_get "application/pdf" = ".pdf" ∧
    (∀ mime, mime ≠ "image/jpeg" → mime ≠ "image/png" → mime ≠ "image/gif" →
      mime ≠ "image/webp" → mime ≠ "video/mp4" → mime ≠ "audio/mpeg" →
      mime ≠ "audio/ogg" → mime ≠ "application/pdf" → ext_map_get mime = ".bin") ∧
    get_media (save_media ⟨"/m", [], [], [("/t/photo.jpg", [9, 9, 9])], 0⟩ 100 5
        "/t/photo.jpg" none "T").1 100 5 =
      some ⟨"/m/chat100_msg5.jpg", "image/jpeg", "T", 3, ".jpg", none, none⟩ := by
  refine ⟨?_, rfl, rfl, rfl, rfl, rfl, rfl, rfl, rfl, ?_, by decide⟩
  · intro s c m src mt now bytes h
    simp only [save_media_ok h, save_index, get_media]
    refine ⟨_, findVal_upsert_self _ _ _, rfl, rfl, ?_, ?_, ?_, ?_, rfl, rfl⟩
    · intro mime hmt
      simp [resolve_mime, hmt]
    · intro g hmt hg
      simp [resolve_mime, hmt, hg]
    · intro hmt hg
      simp [resolve_mime, hmt, hg]
    · simp [resolve_extension, resolve_mime]
  · intro mime h1 h2 h3 h4 h5 h6 h7 h8
    simp [ext_map_get, h1, h2, h3, h4, h5, h6, h7, h8]

theorem C7_save_resolution_witness :
    ∃ info : MediaInfo,
      get_media (save_media ⟨"/b", [], [], [("/t/clip", [1])], 0⟩ 4 7 "/t/clip"
        (some "video/mp4") "T").1 4 7 = some info ∧
      (save_media ⟨"/b", [], [], [("/t/clip", [1])], 0⟩ 4 7 "/t/clip"
        (some "video/mp4") "T").2 = Except.ok info.path ∧
      info.mime_type = resolve_mime "/t/clip" (some "video/mp4") ∧
      (∀ mime, some "video/mp4" = some mime → info.mime_type = mime) ∧
      (∀ g, some "video/mp4" = none → guess_type "/t/clip" = some g → info.mime_type = g) ∧
      (some "video/mp4" = none → guess_type "/t/clip" = none →
        info.mime_type = "application/octet-stream") ∧
      info.extension =
        (if pathSuffix "/t/clip" = "" then ext_map_get info.mime_type
         else pathSuffix "/t/clip") ∧
      info.size = [1].length ∧
      info.path = "/b" ++ "/chat" ++ toString (4 : Int) ++ "_msg" ++ toString (7 : Int)
        ++ info.extension :=
  C7_save_resolution.1 ⟨"/b", [], [], [("/t/clip", [1])], 0⟩ 4 7 "/t/clip"
    (some "video/mp4") "T" [1] (by decide)

/-- C2: Key uniqueness and overwrite — every reachable store state holds at
most one index entry per `(chat_id, message_id)` key; saving twice under the
same key leaves exactly one entry for the key, whose metadata (path, MIME
type, size, extension, timestamp) is that of the second save, with the index
persisted; and when the second save resolves a different extension, the file
written by the first save is still on disk with its original bytes while
only the index entry was replaced. -/
theorem C2_overwrite :
    (∀ s : StoreState, Reachable s → ∀ k : String,
      (s.index.filter (fun kv => kv.1 == k)).length ≤ 1) ∧
    (∀ (s : StoreState) (c m : Int) (src1 src2 : String) (mt1 mt2 : Option String)
      (now1 now2 : String) (b1 b2 : List Nat),
      (keysOf s.index).Nodup →
      findVal src1 s.fs = some b1 →
      findVal src2 (save_media s c m src1 mt1 now1).1.fs = some b2 →
      ((((save_media (save_media s c m src1 mt1 now1).1 c m src2 mt2 now2).1.index.filter
          (fun kv => kv.1 == get_key c m)).length = 1 ∧
        findVal (get_key c m)
            (save_media (save_media s c m src1 mt1 now1).1 c m src2 mt2 now2).1.index =
          some { path := get_file_path s.base_dir c m
                   (resolve_extension src2 (resolve_mime src2 mt2)),
                 mime_type := resolve_mime src2 mt2, timestamp := now2,
                 size := b2.length,
                 extension := resolve_extension src2 (resolve_mime src2 mt2) } ∧
        (save_media (save_media s c m src1 mt1 now1).1 c m src2 mt2 now2).1.persisted =
          (save_media (save_media s c m src1 mt1 now1).1 c m src2 mt2 now2).1.index ∧
        (resolve_extension src1 (resolve_mime src1 mt1) ≠
            resolve_extension src2 (resolve_mime src2 mt2) →
          findVal (get_file_path s.base_dir c m (resolve_extension src1 (resolve_mime src1 mt1)))
            (save_media (save_media s c m src1 mt1 now1).1 c m src2 mt2 now2).1.fs =
            some b1)))) := by
  constructor
  · intro s hr k
    exact filter_key_length_le_one (reachable_keys_nodup hr) k
  · intro s c m src1 src2 mt1 mt2 now1 now2 b1 b2 hn h1 h2
    have hfs1 : (save_media s c m src1 mt1 now1).1.fs =
        upsert (get_file_path s.base_dir c m (resolve_extension src1 (resolve_mime src1 mt1)))
          b1 s.fs := by
      rw [save_media_ok h1]
      rfl
    have hidx1 : (save_media s c m src1 mt1 now1).1.index =
        upsert (get_key c m)
          { path := get_file_path s.base_dir c m (resolve_extension src1 (resolve_mime src1 mt1)),
            mime_type := resolve_mime src1 mt1, timestamp := now1,
            size := b1.length,
            extension := resolve_extension src1 (resolve_mime src1 mt1) } s.index := by
      rw [save_media_ok h1]
      rfl
    have hbase1 : (save_media s c m src1 mt1 now1).1.base_dir = s.base_dir := by
      rw [save_media_ok h1]
      rfl
    rw [save_media_ok h2]
    simp only [save_index, hbase1, hidx1, hfs1]
    have hn1 : (keysOf (upsert (get_key c m)
        { path := get_file_path s.base_dir c m (resolve_extension src1 (resolve_mime src1 mt1)),
          mime_type := resolve_mime src1 mt1, timestamp := now1,
          size := b1.length,
          extension := resolve_extension src1 (resolve_mime src1 mt1) } s.index)).Nodup :=
      nodup_keys_upsert _ _ hn
    refine ⟨?_, findVal_upsert_self _ _ _, trivial, ?_⟩
    · rw [filter_key_eq_single (nodup_keys_upsert _ _ hn1) (findVal_upsert_self _ _ _)]
      rfl
    · intro hne
      have hdne : get_file_path s.base_dir c m (resolve_extension src1 (resolve_mime src1 mt1)) ≠
          get_file_path s.base_dir c m (resolve_extension src2 (resolve_mime src2 mt2)) :=
        fun hh => hne (get_file_path_inj_ext hh)
      rw [findVal_upsert_ne hdne, findVal_upsert_self]

def C2State : StoreState :=
  ⟨"/m", [], [], [("/t/a.png", [5]), ("/t/b.gif", [6, 6])], 0⟩

def C2Resaved : StoreState :=
  (save_media (save_media C2State 1 2 "/t/a.png" none "T1").1 1 2 "/t/b.gif" none "T2").1

def C2Info : MediaInfo := ⟨"/m/chat1_msg2.png", "image/png", "T0", 1, ".png", none, none⟩

theorem C2_overwrite_witness :
    ((⟨"/m", [("1|2", C2Info)], [("1|2", C2Info)], [], 0⟩ : StoreState).index.filter
      (fun kv => kv.1 == "1|2")).length ≤ 1 ∧
    ((C2Resaved.index.filter (fun kv => kv.1 == get_key 1 2)).length = 1 ∧
      findVal (get_key 1 2) C2Resaved.index =
        some { path := get_file_path "/m" 1 2
                 (resolve_extension "/t/b.gif" (resolve_mime "/t/b.gif" none)),
               mime_type := resolve_mime "/t/b.gif" none, timestamp := "T2",
               size := [6, 6].length,
               extension := resolve_extension "/t/b.gif" (resolve_mime "/t/b.gif" none) } ∧
      C2Resaved.persisted = C2Resaved.index ∧
      (resolve_extension "/t/a.png" (resolve_mime "/t/a.png" none) ≠
          resolve_extension "/t/b.gif" (resolve_mime "/t/b.gif" none) →
        findVal (get_file_path "/m" 1 2
            (resolve_extension "/t/a.png" (resolve_mime "/t/a.png" none)))
          C2Resaved.fs = some [5])) :=
  ⟨C2_overwrite.1 ⟨"/m", [("1|2", C2Info)], [("1|2", C2Info)], [], 0⟩
      (Reachable.init "/m" [("1|2", C2Info)] [] (by simp [KeysNodup])) "1|2",
   C2_overwrite.2 C2State 1 2 "/t/a.png" "/t/b.gif" none none "T1" "T2" [5] [6, 6]
      (by decide) (by decide) (by decide)⟩

/-- C4: Delete semantics — deleting an absent key returns false with no side
effect at all; deleting a present key removes the index entry, persists the
index and returns true whether or not the file removal succeeds or the file
exists; hence deleting an existing key twice returns true then false. -/
theorem C4_delete_semantics :
    (∀ (removeOk : Bool) (s : StoreState) (c m : Int),
      findVal (get_key c m) s.index = none → delete_media removeOk s c m = (s, false)) ∧
    (∀ (removeOk : Bool) (s : StoreState) (c m : Int) (info : MediaInfo),
      findVal (get_key c m) s.index = some info →
      (delete_media removeOk s c m).2 = true ∧
      (delete_media removeOk s c m).1.index = eraseKey (get_key c m) s.index ∧
      (delete_media removeOk s c m).1.persisted = eraseKey (get_key c m) s.index ∧
      (delete_media removeOk s c m).1.persistCount = s.persistCount + 1) ∧
    (∀ (removeOk1 removeOk2 : Bool) (s : StoreState) (c m : Int) (info : MediaInfo),
      (keysOf s.index).Nodup →
      findVal (get_key c m) s.index = some info →
      (delete_media removeOk1 s c m).2 = true ∧
      (delete_media removeOk2 (delete_media removeOk1 s c m).1 c m).2 = false) := by
  refine ⟨?_, ?_, ?_⟩
  · intro removeOk s c m h
    exact delete_media_absent h
  · intro removeOk s c m info h
    rw [delete_media_present h]
    exact ⟨rfl, rfl, rfl, rfl⟩
  · intro removeOk1 removeOk2 s c m info hn h
    have hidx : (delete_media removeOk1 s c m).1.index = eraseKey (get_key c m) s.index := by
      rw [delete_media_present h]
      rfl
    have hnone : findVal (get_key c m) (delete_media removeOk1 s c m).1.index = none := by
      rw [hidx]
      exact findVal_eraseKey_self hn _
    constructor
    · rw [delete_media_present h]
    · rw [delete_media_absent hnone]

theorem C4_delete_semantics_witness :
    delete_media true ⟨"/m", [], [], [], 0⟩ 1 2 = (⟨"/m", [], [], [], 0⟩, false) ∧
    ((delete_media false ⟨"/m", [("1|2", C2Info)], [("1|2", C2Info)], [], 0⟩ 1 2).2 = true ∧
      (delete_media false ⟨"/m", [("1|2", C2Info)], [("1|2", C2Info)], [], 0⟩ 1 2).1.index =
        eraseKey (get_key 1 2) [("1|2", C2Info)] ∧
      (delete_media false ⟨"/m", [("1|2", C2Info)], [("1|2", C2Info)], [], 0⟩ 1 2).1.persisted =
        eraseKey (get_key 1 2) [("1|2", C2Info)] ∧
      (delete_media false ⟨"/m", [("1|2", C2Info)], [("1|2", C2Info)], [], 0⟩ 1 2).1.persistCount =
        0 + 1) ∧
    ((delete_media true ⟨"/m", [("1|2", C2Info)], [("1|2", C2Info)], [], 0⟩ 1 2).2 = true ∧
      (delete_media true
        (delete_media true ⟨"/m", [("1|2", C2Info)], [("1|2", C2Info)], [], 0⟩ 1 2).1 1 2).2 =
        false) :=
  ⟨C4_delete_semantics.1 true ⟨"/m", [], [], [], 0⟩ 1 2 (by decide),
   C4_delete_semantics.2.1 false ⟨"/m", [("1|2", C2Info)], [("1|2", C2Info)], [], 0⟩ 1 2
     C2Info (by decide),
   C4_delete_semantics.2.2 true true ⟨"/m", [("1|2", C2Info)], [("1|2", C2Info)], [], 0⟩ 1 2
     C2Info (by simp [keysOf]) (by decide)⟩

theorem length_filter_add_length_filter_not {α : Type} (p : α → Bool) (l : List α) :
    (l.filter p).length + (l.filter (fun a => !p a)).length = l.length := by
  induction l with
  | nil => simp
  | cons a rest ih =>
    by_cases h : p a <;> simp [List.filter_cons, h, ← ih] <;> omega

theorem isNone_eq_not_isSome {α : Type} (o : Option α) : o.isNone = !o.isSome := by
  cases o <;> rfl

theorem clear_foldl_count (removeOk : String → Bool) :
    ∀ (idx : List (String × MediaInfo)) (fs : List (String × List Nat)) (n : Nat),
      (idx.map (fun kv => kv.2.path)).Nodup →
      (idx.foldl (fun (acc : List (String × List Nat) × Nat) kv =>
        if (findVal kv.2.path acc.1).isSome then
          if removeOk kv.2.path then (eraseKey kv.2.path acc.1, acc.2 + 1) else acc
        else acc) (fs, n)).2 =
      n + (idx.filter (fun kv =>
        (findVal kv.2.path fs).isSome && removeOk kv.2.path)).length := by
  intro idx
  induction idx with
  | nil => intro fs n _; simp
  | cons kv rest ih =>
    intro fs n hn
    simp only [List.map_cons, List.nodup_cons] at hn
    have hcongr : ∀ fs' : List (String × List Nat),
        (∀ q : String, q ≠ kv.2.path → findVal q fs' = findVal q fs) →
        rest.filter (fun kv' => (findVal kv'.2.path fs').isSome && removeOk kv'.2.path) =
          rest.filter (fun kv' => (findVal kv'.2.path fs).isSome && removeOk kv'.2.path) := by
      intro fs' hq
      apply List.filter_congr
      intro kv' hkv'
      have hne : kv'.2.path ≠ kv.2.path := by
        intro hh
        exact hn.1 (List.mem_map.mpr ⟨kv', hkv', hh⟩)
      rw [hq _ hne]
    by_cases h1 : (findVal kv.2.path fs).isSome = true
    · by_cases h2 : removeOk kv.2.path = true
      · rw [List.foldl_cons, if_pos h1, if_pos h2]
        rw [ih (eraseKey kv.2.path fs) (n + 1) hn.2]
        rw [hcongr (eraseKey kv.2.path fs) (fun q hq => findVal_eraseKey_ne hq fs)]
        rw [List.filter_cons]
        simp only [h1, h2, Bool.and_self, if_true, List.length_cons]
        omega
      · rw [List.foldl_cons, if_pos h1, if_neg h2]
        rw [ih fs n hn.2]
        rw [List.filter_cons]
        simp only [Bool.not_eq_true] at h2
        simp [h1, h2]
    · rw [List.foldl_cons, if_neg h1]
      rw [ih fs n hn.2]
      rw [List.filter_cons]
      simp only [Bool.not_eq_true] at h1
      simp [h1]

/-- C5: Clear-all count accuracy — with all removals succeeding, the returned
count is the number of index entries, minus those whose file was already
missing; whatever the per-file removal outcomes, the index is left empty,
persisted empty, with one index write; and on an empty store the count is
zero. -/
theorem C5_clear_all :
    (∀ (removeOk : String → Bool) (s : StoreState),
      (s.index.map (fun kv => kv.2.path)).Nodup →
      (clear_all_media removeOk s).2 =
        (s.index.filter (fun kv =>
          (findVal kv.2.path s.fs).isSome && removeOk kv.2.path)).length) ∧
    (∀ s : StoreState, (s.index.map (fun kv => kv.2.path)).Nodup →
      (clear_all_media (fun _ => true) s).2 =
        s.index.length -
          (s.index.filter (fun kv => (findVal kv.2.path s.fs).isNone)).length) ∧
    (∀ (removeOk : String → Bool) (s : StoreState),
      (clear_all_media removeOk s).1.index = [] ∧
      (clear_all_media removeOk s).1.persisted = [] ∧
      (clear_all_media removeOk s).1.persistCount = s.persistCount + 1) ∧
    (∀ (removeOk : String → Bool) (s : StoreState), s.index = [] →
      (clear_all_media removeOk s).2 = 0) := by
  have hmain : ∀ (removeOk : String → Bool) (s : StoreState),
      (s.index.map (fun kv => kv.2.path)).Nodup →
      (clear_all_media removeOk s).2 =
        (s.index.filter (fun kv =>
          (findVal kv.2.path s.fs).isSome && removeOk kv.2.path)).length := by
    intro removeOk s hn
    have := clear_foldl_count removeOk s.index s.fs 0 hn
    simpa [clear_all_media] using this
  refine ⟨hmain, ?_, ?_, ?_⟩
  · intro s hn
    rw [hmain (fun _ => true) s hn]
    have hsplit := length_filter_add_length_filter_not
      (fun kv => (findVal kv.2.path s.fs).isSome) s.index
    have hcongr1 : s.index.filter (fun kv =>
        (findVal kv.2.path s.fs).isSome && (fun _ : String => true) kv.2.path) =
        s.index.filter (fun kv => (findVal kv.2.path s.fs).isSome) := by
      apply List.filter_congr
      intro kv _
      simp
    have hcongr2 : s.index.filter (fun kv => (findVal kv.2.path s.fs).isNone) =
        s.index.filter (fun kv => !(findVal kv.2.path s.fs).isSome) := by
      apply List.filter_congr
      intro kv _
      rw [isNone_eq_not_isSome]
    rw [hcongr1, hcongr2]
    omega
  · intro removeOk s
    exact ⟨rfl, rfl, rfl⟩
  · intro removeOk s h
    simp [clear_all_media, h]

theorem C5_clear_all_witness :
    ((clear_all_media (fun _ => false)
        ⟨"/m", [("1|2", C2Info)], [("1|2", C2Info)], [("/m/chat1_msg2.png", [5])], 0⟩).2 =
      ([("1|2", C2Info)].filter (fun kv =>
        (findVal kv.2.path [("/m/chat1_msg2.png", [5])]).isSome && false)).length) ∧
    ((clear_all_media (fun _ => true)
        ⟨"/m", [("1|2", C2Info)], [("1|2", C2Info)], [("/m/chat1_msg2.png", [5])], 0⟩).2 =
      [("1|2", C2Info)].length -
        ([("1|2", C2Info)].filter (fun kv =>
          (findVal kv.2.path [("/m/chat1_msg2.png", [5])]).isNone)).length) ∧
    ((clear_all_media (fun _ => false) ⟨"/m", [("1|2", C2Info)], [], [], 3⟩).1.index = [] ∧
      (clear_all_media (fun _ => false) ⟨"/m", [("1|2", C2Info)], [], [], 3⟩).1.persisted = [] ∧
      (clear_all_media (fun _ => false) ⟨"/m", [("1|2", C2Info)], [], [], 3⟩).1.persistCount =
        3 + 1) ∧
    (clear_all_media (fun _ => true) ⟨"/m", [], [], [], 0⟩).2 = 0 :=
  ⟨C5_clear_all.1 (fun _ => false)
      ⟨"/m", [("1|2", C2Info)], [("1|2", C2Info)], [("/m/chat1_msg2.png", [5])], 0⟩
      (by simp [C2Info]),
   C5_clear_all.2.1 ⟨"/m", [("1|2", C2Info)], [("1|2", C2Info)], [("/m/chat1_msg2.png", [5])], 0⟩
      (by simp [C2Info]),
   C5_clear_all.2.2.1 (fun _ => false) ⟨"/m", [("1|2", C2Info)], [], [], 3⟩,
   C5_clear_all.2.2.2 (fun _ => true) ⟨"/m", [], [], [], 0⟩ rfl⟩

/-- C6: Stats consistency — `total_files` is the length of the list result,
`total_size_bytes` its summed sizes, `total_size_mb` the byte total divided
by 1024*1024 and rounded to two decimals, `storage_path` the base directory,
and the state after stats is exactly the state after the underlying list
(with its stale reconciliation). -/
theorem C6_stats_consistency (s : StoreState) :
    (get_storage_stats s).2.total_files = (list_media s).2.length ∧
    (get_storage_stats s).2.total_size_bytes =
      ((list_media s).2.map (fun v => v.size)).sum ∧
    (get_storage_stats s).2.total_size_mb =
      round2 (((get_storage_stats s).2.total_size_bytes : ℚ) / (1024 * 1024)) ∧
    (get_storage_stats s).2.storage_path = s.base_dir ∧
    (get_storage_stats s).1 = (list_media s).1 :=
  ⟨rfl, rfl, rfl, rfl, rfl⟩

theorem list_media_snd_live {s : StoreState} {r : MediaInfo}
    (hr : r ∈ (list_media s).2) : (findVal r.path s.fs).isSome = true := by
  rw [list_media_snd_eq] at hr
  obtain ⟨kv, hkv, rfl⟩ := List.mem_map.mp hr
  simpa [entryLive] using (List.mem_filter.mp hkv).2

/-- C3 (amended): Stale pruning — for a record whose file is gone, `list()`
does not include it and removes every stale entry from the in-memory index,
persisting the index exactly once for the pass; before that `list()`,
`get()` still returns the metadata while `resolve_path` reports absence;
after it, `get()` and `resolve_path` both report absence, and the next
`list()` also excludes the record and leaves the key absent. -/
theorem C3_stale_pruning (s : StoreState) (c m : Int) (info : MediaInfo)
    (hn : (keysOf s.index).Nodup)
    (hget : get_media s c m = some info)
    (hdead : findVal info.path s.fs = none) :
    (∀ r ∈ (list_media s).2, r.path ≠ info.path) ∧
    (∀ k' v', findVal k' s.index = some v' → findVal v'.path s.fs = none →
      findVal k' (list_media s).1.index = none) ∧
    (list_media s).1.persistCount = s.persistCount + 1 ∧
    (list_media s).1.persisted = (list_media s).1.index ∧
    get_media_path s c m = none ∧
    get_media (list_media s).1 c m = none ∧
    get_media_path (list_media s).1 c m = none ∧
    (∀ r ∈ (list_media (list_media s).1).2, r.path ≠ info.path) ∧
    get_media (list_media (list_media s).1).1 c m = none := by
  have hstale : ∀ k' v', findVal k' s.index = some v' → findVal v'.path s.fs = none →
      k' ∈ staleKeysOf s := by
    intro k' v' hk hv
    exact (mem_staleKeysOf hn k').mpr ⟨v', hk, by simp [entryLive, hv]⟩
  have hmem : get_key c m ∈ staleKeysOf s := hstale _ info hget hdead
  have hne : (staleKeysOf s).isEmpty = false := by
    rcases he : staleKeysOf s with _ | ⟨a, l⟩
    · rw [he] at hmem
      simp at hmem
    · rfl
  have hrem : ∀ k' v', findVal k' s.index = some v' → findVal v'.path s.fs = none →
      findVal k' (list_media s).1.index = none := by
    intro k' v' hk hv
    rw [findVal_list_media_index hn k', if_pos (hstale k' v' hk hv)]
  have hgone : get_media (list_media s).1 c m = none := hrem _ info hget hdead
  have hexcl : ∀ r ∈ (list_media s).2, r.path ≠ info.path := by
    intro r hr heq
    have hlive := list_media_snd_live hr
    rw [heq, hdead] at hlive
    simp at hlive
  refine ⟨hexcl, hrem, ?_, ?_, ?_, hgone, ?_, ?_, ?_⟩
  · rw [list_media_persistCount, if_neg (by simp [hne])]
  · rw [list_media_persisted, if_neg (by simp [hne])]
  · simp [get_media_path, hget, hdead]
  · simp [get_media_path, hgone]
  · intro r hr heq
    have hlive := list_media_snd_live hr
    rw [list_media_fs, heq, hdead] at hlive
    simp at hlive
  · rw [get_media, findVal_list_media_index (nodup_keys_list_media hn) (get_key c m)]
    by_cases hst : get_key c m ∈ staleKeysOf (list_media s).1
    · rw [if_pos hst]
    · rw [if_neg hst]
      rw [show findVal (get_key c m) (list_media s).1.index = none from hgone]
      rfl

def C3Info : MediaInfo := ⟨"/m/chat100_msg5.jpg", "image/jpeg", "T", 3, ".jpg", none, none⟩

def C3State : StoreState := ⟨"/m", [("100|5", C3Info)], [("100|5", C3Info)], [], 0⟩

/-- C3 counterexample to the claim as stated: for a store holding the key
`(100, 5)` whose file was deleted out-of-band, after `list()` a subsequent
`get()` returns absence — not, as the claim has it, the index metadata. -/
theorem C3_counterexample :
    get_media C3State 100 5 = some C3Info ∧
    findVal C3Info.path C3State.fs = none ∧
    get_media (list_media C3State).1 100 5 = none := by
  decide

theorem C3_stale_pruning_witness :
    (∀ r ∈ (list_media C3State).2, r.path ≠ C3Info.path) ∧
    (∀ k' v', findVal k' C3State.index = some v' → findVal v'.path C3State.fs = none →
      findVal k' (list_media C3State).1.index = none) ∧
    (list_media C3State).1.persistCount = C3State.persistCount + 1 ∧
    (list_media C3State).1.persisted = (list_media C3State).1.index ∧
    get_media_path C3State 100 5 = none ∧
    get_media (list_media C3State).1 100 5 = none ∧
    get_media_path (list_media C3State).1 100 5 = none ∧
    (∀ r ∈ (list_media (list_media C3State).1).2, r.path ≠ C3Info.path) ∧
    get_media (list_media (list_media C3State).1).1 100 5 = none :=
  C3_stale_pruning C3State 100 5 C3Info (by simp [C3State, keysOf])
    (by decide) (by decide)

/-- C9 (amended): Resource resolution — with parseable route parameters, an
unknown key fails with the wrapped `Media not found: {chat}/{msg}. Download
it first.` condition, which names the address; a known key whose file is
missing fails with the wrapped `Media file not found at {path}` condition,
naming the stored path rather than the address; neither path re-downloads
(the handler is a pure read); and a known key with an existing file returns
the full content base64-encoded with the record's MIME type and the
original address.  Resolving `tgfile://100/5` on an empty store fails with
the address-naming download-first condition. -/
theorem C9_resource_resolution :
    (∀ (s : StoreState) (cs ms : String) (c m : Int),
      parseInt cs = some c → parseInt ms = some m →
      (get_media s c m = none →
        get_telegram_media s cs ms = Except.error
          ("Failed to serve media resource: Media not found: " ++ cs ++ "/" ++ ms
            ++ ". Download it first.")) ∧
      (∀ info, get_media s c m = some info → findVal info.path s.fs = none →
        get_telegram_media s cs ms = Except.error
          ("Failed to serve media resource: Media file not found at " ++ info.path)) ∧
      (∀ info bytes, get_media s c m = some info → findVal info.path s.fs = some bytes →
        get_telegram_media s cs ms = Except.ok
          { uri := "tgfile://" ++ cs ++ "/" ++ ms,
            blob := String.mk (base64Encode bytes),
            mimeType := info.mime_type })) ∧
    get_telegram_media ⟨"/m", [], [], [], 0⟩ "100" "5" = Except.error
      "Failed to serve media resource: Media not found: 100/5. Download it first." ∧
    containsSub "Download it first"
      "Failed to serve media resource: Media not found: 100/5. Download it first." = true ∧
    containsSub "100/5"
      "Failed to serve media resource: Media not found: 100/5. Download it first." = true := by
  refine ⟨?_, by decide, by decide, by decide⟩
  intro s cs ms c m hc hm
  refine ⟨?_, ?_, ?_⟩
  · intro hnone
    simp [get_telegram_media, hc, hm, hnone]
  · intro info hsome hdead
    simp [get_telegram_media, hc, hm, hsome, hdead]
  · intro info bytes hsome hbytes
    simp [get_telegram_media, hc, hm, hsome, hbytes]

/-- C9 counterexample to the claim as stated: with the key `(100, 5)` known
but its file missing, resolution fails with a message that neither contains
`Download it first` nor names the address `100/5` — it names the stored
path instead. -/
theorem C9_counterexample :
    get_media C3State 100 5 = some C3Info ∧
    findVal C3Info.path C3State.fs = none ∧
    get_telegram_media C3State "100" "5" = Except.error
      "Failed to serve media resource: Media file not found at /m/chat100_msg5.jpg" ∧
    containsSub "Download it first"
      "Failed to serve media resource: Media file not found at /m/chat100_msg5.jpg" = false ∧
    containsSub "100/5"
      "Failed to serve media resource: Media file not found at /m/chat100_msg5.jpg" = false := by
  decide

theorem C9_resource_resolution_witness :
    (get_media C3State 100 5 = none →
      get_telegram_media C3State "100" "5" = Except.error
        ("Failed to serve media resource: Media not found: " ++ "100" ++ "/" ++ "5"
          ++ ". Download it first.")) ∧
    (∀ info, get_media C3State 100 5 = some info → findVal info.path C3State.fs = none →
      get_telegram_media C3State "100" "5" = Except.error
        ("Failed to serve media resource: Media file not found at " ++ info.path)) ∧
    (∀ info bytes, get_media C3State 100 5 = some info →
      findVal info.path C3State.fs = some bytes →
      get_telegram_media C3State "100" "5" = Except.ok
        { uri := "tgfile://" ++ "100" ++ "/" ++ "5",
          blob := String.mk (base64Encode bytes), mimeType := info.mime_type }) :=
  C9_resource_resolution.1 C3State "100" "5" 100 5 (by decide) (by decide)

/-- C10: List annotation frame effect — every record `list_media` returns is
an entry of the store's own post-list in-memory index; after the call every
surviving index entry carries `chat_id` and `message_id` fields parsed from
its key; when stale entries were pruned that annotated index is what was
just persisted; and a later persistence (here: a delete of another key)
writes the annotated entries to disk unchanged. -/
theorem C10_list_annotation (s : StoreState)
    (hn : (keysOf s.index).Nodup)
    (hparse : ∀ kv ∈ s.index, (splitKey kv.1).isSome = true) :
    (∀ r ∈ (list_media s).2, ∃ k, findVal k (list_media s).1.index = some r) ∧
    (∀ k v, findVal k (list_media s).1.index = some v →
      ∃ cm : Int × Int, splitKey k = some cm ∧
        v.chat_id = some cm.1 ∧ v.message_id = some cm.2) ∧
    ((∃ kv ∈ s.index, entryLive s.fs kv.2 = false) →
      (list_media s).1.persisted = (list_media s).1.index) ∧
    (∀ (c m : Int) (removeOk : Bool) (info : MediaInfo),
      findVal (get_key c m) (list_media s).1.index = some info →
      ∀ k, k ≠ get_key c m →
        findVal k (delete_media removeOk (list_media s).1 c m).1.persisted =
          findVal k (list_media s).1.index) := by
  refine ⟨?_, ?_, ?_, ?_⟩
  · intro r hr
    rw [list_media_snd_eq] at hr
    obtain ⟨kv, hkv, rfl⟩ := List.mem_map.mp hr
    obtain ⟨hmem, hlive⟩ := List.mem_filter.mp hkv
    obtain ⟨kv0, hkv0, hkveq⟩ := List.mem_map.mp hmem
    refine ⟨kv0.1, ?_⟩
    have hlive0 : entryLive s.fs kv0.2 = true := by
      by_cases hl : entryLive s.fs kv0.2 = true
      · exact hl
      · simp only [Bool.not_eq_true] at hl
        rw [← hkveq] at hlive
        simp only [annVal, hl] at hlive
        exact hlive
    have hfind0 : findVal kv0.1 s.index = some kv0.2 := findVal_of_mem hn (by simpa using hkv0)
    have hnst : kv0.1 ∉ staleKeysOf s := by
      intro hst
      obtain ⟨v', hv', hdead⟩ := (mem_staleKeysOf hn kv0.1).mp hst
      rw [hfind0, Option.some_inj] at hv'
      rw [hv'] at hlive0
      rw [hlive0] at hdead
      exact absurd hdead (by simp)
    rw [findVal_list_media_index hn kv0.1, if_neg hnst, hfind0]
    rw [Option.map_some']
    rw [← hkveq]
  · intro k v hv
    rw [findVal_list_media_index hn k] at hv
    by_cases hst : k ∈ staleKeysOf s
    · rw [if_pos hst] at hv
      exact absurd hv (by simp)
    · rw [if_neg hst] at hv
      rcases hf : findVal k s.index with _ | v0
      · rw [hf] at hv
        exact absurd hv (by simp)
      · rw [hf] at hv
        simp only [Option.map_some', Option.some_inj] at hv
        have hlive0 : entryLive s.fs v0 = true := by
          by_cases hl : entryLive s.fs v0 = true
          · exact hl
          · simp only [Bool.not_eq_true] at hl
            exact absurd ((mem_staleKeysOf hn k).mpr ⟨v0, hf, hl⟩) hst
        have hps : (splitKey k).isSome = true := hparse (k, v0) (mem_of_findVal hf)
        rcases hsk : splitKey k with _ | cm
        · rw [hsk] at hps
          exact absurd hps (by simp)
        · refine ⟨cm, rfl, ?_, ?_⟩
          · rw [← hv]
            simp [annVal, hlive0, annotate, hsk]
          · rw [← hv]
            simp [annVal, hlive0, annotate, hsk]
  · rintro ⟨kv, hkv, hdead⟩
    have hmemst : kv.1 ∈ staleKeysOf s :=
      (mem_staleKeysOf hn kv.1).mpr ⟨kv.2, findVal_of_mem hn (by simpa using hkv), hdead⟩
    have hne : (staleKeysOf s).isEmpty = false := by
      rcases he : staleKeysOf s with _ | ⟨a, l⟩
      · rw [he] at hmemst
        simp at hmemst
      · rfl
    rw [list_media_persisted, if_neg (by simp [hne])]
  · intro c m removeOk info hinfo k hk
    rw [delete_media_present hinfo]
    show findVal k (eraseKey (get_key c m) (list_media s).1.index) = _
    exact findVal_eraseKey_ne hk _

def C10Live : MediaInfo := ⟨"/m/chat7_msg8.png", "image/png", "T", 1, ".png", none, none⟩

def C10State : StoreState :=
  ⟨"/m", [("100|5", C3Info), ("7|8", C10Live)], [("100|5", C3Info), ("7|8", C10Live)],
    [("/m/chat7_msg8.png", [1])], 0⟩

theorem C10_list_annotation_witness :
    (∀ r ∈ (list_media C10State).2, ∃ k, findVal k (list_media C10State).1.index = some r) ∧
    (∀ k v, findVal k (list_media C10State).1.index = some v →
      ∃ cm : Int × Int, splitKey k = some cm ∧
        v.chat_id = some cm.1 ∧ v.message_id = some cm.2) ∧
    ((∃ kv ∈ C10State.index, entryLive C10State.fs kv.2 = false) →
      (list_media C10State).1.persisted = (list_media C10State).1.index) ∧
    (∀ (c m : Int) (removeOk : Bool) (info : MediaInfo),
      findVal (get_key c m) (list_media C10State).1.index = some info →
      ∀ k, k ≠ get_key c m →
        findVal k (delete_media removeOk (list_media C10State).1 c m).1.persisted =
          findVal k (list_media C10State).1.index) :=
  C10_list_annotation C10State (by simp [C10State, keysOf])
    (by intro kv hkv; fin_cases hkv <;> decide)
